import Mathlib

set_option maxRecDepth 20000

/-!
Verification of the Timer_A software UART core of `src/main.c` (MSP430G2xx1,
9600 baud, 8N1).  The embedding models the globals and timer registers the
UART code reads and writes: `TACCR0`, the `CCIE` and `OUTMOD2` bits of
`TACCTL0`, `txData`, the static `txBitCnt`, `TACCR1`, the `CAP` bit of
`TACCTL1`, the statics `rxData` and `rxBitCnt`, the global `rxBuffer`, and
the LPM0 wake-up performed with `__bic_SR_register_on_exit`.  The 16-bit
timer registers and `unsigned int` variables are modelled as `Nat` reduced
`% 65536` at each write; `unsigned char` variables are reduced `% 256`.
The physical TX line level is determined by the output mode the ISR
programs: mode 1 (`OUTMOD2` clear) drives mark = 1, mode 5 (`OUTMOD2` set)
drives space = 0.  The RX hardware latch (`SCCI`) is modelled as the bit
value handed to the receive ISR at each compare event.
-/

/-- Full bit time in SMCLK (1 MHz) ticks: `#define UART_TBIT (1000000 / 9600)`. -/
def UART_TBIT : Nat := 1000000 / 9600

/-- Half bit time: `#define UART_TBIT_DIV_2 (1000000 / (9600 * 2))`. -/
def UART_TBIT_DIV_2 : Nat := 1000000 / (9600 * 2)

/-- The state of the software UART: the timer registers and C globals that
`TimerA_UART_tx`, `Timer_A0_ISR` and `Timer_A1_ISR` access. -/
structure UartState where
  /-- TACCR0, the TX compare target (16-bit). -/
  taccr0 : Nat
  /-- CCIE bit of TACCTL0: TX compare interrupt enabled. -/
  ccie0 : Bool
  /-- OUTMOD2 bit of TACCTL0: false = output mode 1 (set, mark), true = mode 5 (reset, space). -/
  outmod2 : Bool
  /-- `unsigned int txData`, the 10-bit frame shift register. -/
  txData : Nat
  /-- `static unsigned char txBitCnt` of `Timer_A0_ISR`. -/
  txBitCnt : Nat
  /-- TACCR1, the RX capture/compare register (16-bit). -/
  taccr1 : Nat
  /-- CAP bit of TACCTL1: true = capture mode (awaiting start edge), false = compare mode (sampling). -/
  cap : Bool
  /-- `static unsigned char rxData` of `Timer_A1_ISR`, the receive accumulator. -/
  rxData : Nat
  /-- `static unsigned char rxBitCnt` of `Timer_A1_ISR`. -/
  rxBitCnt : Nat
  /-- `unsigned char rxBuffer`, the mailbox byte read by the main loop. -/
  rxBuffer : Nat
  /-- LPM0 exit requested by `__bic_SR_register_on_exit` (the mailbox wake signal). -/
  lpmExit : Bool
  deriving DecidableEq

/-- State after reset and `TimerA_UART_init`: `TACCTL0 = OUT` (idle mark, no
interrupt, mode bits clear), `TACCTL1 = SCS + CM1 + CAP + CCIE` (capture
mode armed), and the C static initializers `txBitCnt = 10`, `rxBitCnt = 8`,
`rxData = 0`, `rxBuffer = 0`. -/
def TimerA_UART_init : UartState :=
  { taccr0 := 0, ccie0 := false, outmod2 := false, txData := 0, txBitCnt := 10,
    taccr1 := 0, cap := true, rxData := 0, rxBitCnt := 8, rxBuffer := 0,
    lpmExit := false }

/-- Body of `TimerA_UART_tx` after its busy-wait has completed:
`TACCR0 = TAR; TACCR0 += UART_TBIT; TACCTL0 = OUTMOD0 + CCIE;
txData = byte; txData |= 0x100; txData <<= 1;`.  `tar` is the value of the
free-running counter TAR read by the call. -/
def txLoad (byte tar : Nat) (s : UartState) : UartState :=
  { s with taccr0 := (tar % 65536 + UART_TBIT) % 65536,
           ccie0 := true, outmod2 := false,
           txData := ((byte % 256 ||| 0x100) <<< 1) % 65536 }

/-- `Timer_A0_ISR` (TACCR0 compare-match handler), translated line by line:
`TACCR0 += UART_TBIT; if (txBitCnt == 0) { TACCTL0 &= ~CCIE; txBitCnt = 10; }
else { if (txData & 0x01) TACCTL0 &= ~OUTMOD2; else TACCTL0 |= OUTMOD2;
txData >>= 1; txBitCnt--; }`. -/
def Timer_A0_ISR (s : UartState) : UartState :=
  let s := { s with taccr0 := (s.taccr0 + UART_TBIT) % 65536 }
  if s.txBitCnt = 0 then
    { s with ccie0 := false, txBitCnt := 10 }
  else if s.txData &&& 0x01 ≠ 0 then
    { s with outmod2 := false, txData := (s.txData / 2) % 65536,
             txBitCnt := (s.txBitCnt + 255) % 256 }
  else
    { s with outmod2 := true, txData := (s.txData / 2) % 65536,
             txBitCnt := (s.txBitCnt + 255) % 256 }

/-- One hardware step of the TX channel: the compare interrupt fires exactly
when CCIE is set; otherwise nothing happens. -/
def txStep (s : UartState) : UartState :=
  if s.ccie0 then Timer_A0_ISR s else s

/-- `n` successive TX compare events. -/
def txIter : Nat → UartState → UartState
  | 0, s => s
  | n + 1, s => txIter n (txStep s)

/-- The whole `TimerA_UART_tx` call including its busy-wait
`while (TACCTL0 & CCIE);`, given that at most `n` TX compare events occur
while it spins: each loop iteration observes CCIE and, if it is still set,
one more hardware event happens; the body (`txLoad`) runs as soon as CCIE
is observed clear.  `none` means the call is still blocked after `n`
events.  The loop body is empty, so the wait itself writes nothing. -/
def txCall (byte tar : Nat) : Nat → UartState → Option UartState
  | 0, s => if s.ccie0 then none else some (txLoad byte tar s)
  | n + 1, s => if s.ccie0 then txCall byte tar n (Timer_A0_ISR s) else some (txLoad byte tar s)

/-- Physical TX line level implied by the programmed output mode:
mode 1 (OUTMOD2 clear) = mark '1', mode 5 (OUTMOD2 set) = space '0'. -/
def lineLevel (s : UartState) : Bool := !s.outmod2

/-- `Timer_A1_ISR`, `TAIV_TACCR1` case (the only case with code), translated
line by line: `TACCR1 += UART_TBIT;` then, in capture mode,
`TACCTL1 &= ~CAP; TACCR1 += UART_TBIT_DIV_2;`, else
`rxData >>= 1; if (TACCTL1 & SCCI) rxData |= 0x80; rxBitCnt--;
if (rxBitCnt == 0) { rxBuffer = rxData; rxBitCnt = 8; TACCTL1 |= CAP;
__bic_SR_register_on_exit(LPM0_bits); }`.  `scci` is the content of the
hardware SCCI latch (the input level latched by the hardware at the
compare event, not read later in software). -/
def Timer_A1_ISR (scci : Bool) (s : UartState) : UartState :=
  let s := { s with taccr1 := (s.taccr1 + UART_TBIT) % 65536 }
  if s.cap then
    { s with cap := false, taccr1 := (s.taccr1 + UART_TBIT_DIV_2) % 65536 }
  else
    let d0 := (s.rxData % 256) / 2
    let d := if scci then d0 ||| 0x80 else d0
    let cnt := (s.rxBitCnt + 255) % 256
    if cnt = 0 then
      { s with rxData := d, rxBitCnt := 8, cap := true, rxBuffer := d,
               lpmExit := true }
    else
      { s with rxData := d, rxBitCnt := cnt }

/-- A capture event on the RX channel: the hardware latches the counter
value `t` into TACCR1 (a falling edge, so the latched line level is 0) and
the interrupt handler runs. -/
def rxCaptureEvent (t : Nat) (s : UartState) : UartState :=
  Timer_A1_ISR false { s with taccr1 := t % 65536 }

/-- A sequence of RX compare events with the given latched sample bits,
first sample first. -/
def sampleFold : List Bool → UartState → UartState
  | [], s => s
  | c :: bs, s => sampleFold bs (Timer_A1_ISR c s)

/-- One complete receive frame: the start-edge capture at counter value `t`
followed by the compare events delivering the latched sample bits. -/
def recvFrame (t : Nat) (bits : List Bool) (s : UartState) : UartState :=
  sampleFold bits (rxCaptureEvent t s)

/-- The main loop's consume step after waking from LPM0: it reads `rxBuffer`. -/
def wait_for_byte (s : UartState) : Nat := s.rxBuffer

/-- Bit `k` of `n` (LSB is bit 0). -/
def bitOf (n k : Nat) : Bool := n / 2 ^ k % 2 == 1

/-- The 8 data bits of a byte, LSB first. -/
def dataBits (b : Nat) : List Bool := (List.range 8).map (fun k => bitOf b k)

/-- Value of a list of bits read LSB-first. -/
def bitsVal : List Bool → Nat
  | [] => 0
  | c :: bs => (if c then 1 else 0) + 2 * bitsVal bs

/-- The TX line level at counter time `t` for a transmission loaded at
TAR = 0 from the idle state: compare events fire at `UART_TBIT`,
`2 * UART_TBIT`, …, so by time `t` exactly `t / UART_TBIT` events have
occurred. -/
def txLine (b t : Nat) : Bool :=
  lineLevel (txIter (t / UART_TBIT) (txLoad b 0 TimerA_UART_init))

/-- The levels driven on the TX line during the 10 bit periods of a frame
loaded at TAR = 0: the level after the `(k+1)`-th compare event is the one
held during bit period `k`. -/
def txLevels (b : Nat) : List Bool :=
  (List.range 10).map (fun k => lineLevel (txIter (k + 1) (txLoad b 0 TimerA_UART_init)))

/-- `n` RX compare events whose latched sample bit is the level of `line`
at the event time (TACCR1), modelling the SCCI latch fed by `line`. -/
def rxRun (line : Nat → Bool) : Nat → UartState → UartState
  | 0, s => s
  | n + 1, s => rxRun line n (Timer_A1_ISR (line s.taccr1) s)

/-- Loopback: the TX output of a frame loaded at TAR = 0 is fed as the RX
input.  The line falls at time `UART_TBIT` (start bit), which the armed
capture channel latches; the 8 subsequent compare events sample the line
at their target times. -/
def loopbackRun (b : Nat) : UartState :=
  rxRun (txLine b) 8 (rxCaptureEvent UART_TBIT (txLoad b 0 TimerA_UART_init))

/-- C5: the bit-period constants come out of the integer-truncating
divisions as `UART_TBIT = 104` and `UART_TBIT_DIV_2 = 52` for a 1 MHz
clock at 9600 baud; both are strictly positive and the half period is
exactly `UART_TBIT / 2`, hence within one tick of it. -/
theorem bit_period_constants :
    UART_TBIT = 1000000 / 9600 ∧ UART_TBIT = 104 ∧ UART_TBIT_DIV_2 = 52 ∧
    0 < UART_TBIT ∧ 0 < UART_TBIT_DIV_2 ∧
    UART_TBIT_DIV_2 = UART_TBIT / 2 ∧
    UART_TBIT_DIV_2 ≤ UART_TBIT / 2 + 1 ∧ UART_TBIT / 2 ≤ UART_TBIT_DIV_2 + 1 := by
  decide

/-- C9: the TX compare handler writes only TX-owned state and leaves every
RX-owned field and the mailbox unchanged; the RX handler writes only
RX-owned state and the mailbox and leaves every TX-owned field unchanged. -/
theorem isr_state_disjoint (s : UartState) (c : Bool) :
    ((Timer_A0_ISR s).taccr1 = s.taccr1 ∧ (Timer_A0_ISR s).cap = s.cap ∧
     (Timer_A0_ISR s).rxData = s.rxData ∧ (Timer_A0_ISR s).rxBitCnt = s.rxBitCnt ∧
     (Timer_A0_ISR s).rxBuffer = s.rxBuffer ∧ (Timer_A0_ISR s).lpmExit = s.lpmExit) ∧
    ((Timer_A1_ISR c s).taccr0 = s.taccr0 ∧ (Timer_A1_ISR c s).ccie0 = s.ccie0 ∧
     (Timer_A1_ISR c s).outmod2 = s.outmod2 ∧ (Timer_A1_ISR c s).txData = s.txData ∧
     (Timer_A1_ISR c s).txBitCnt = s.txBitCnt) := by
  refine ⟨?_, ?_⟩ <;> simp only [Timer_A0_ISR, Timer_A1_ISR] <;> split_ifs <;> simp

/-- C7: when the last data bit is sampled (`rxBitCnt` reaches 0 after the
decrement), the handler writes the accumulator to `rxBuffer` and requests
the LPM0 wake-up in the same interrupt step, re-arms the channel for
capture (CAP set, back to awaiting an edge) and reloads the bit counter. -/
theorem rx_completion_delivery (s : UartState) (c : Bool)
    (h1 : s.cap = false) (h2 : s.rxBitCnt = 1) :
    (Timer_A1_ISR c s).rxBuffer = (Timer_A1_ISR c s).rxData ∧
    (Timer_A1_ISR c s).lpmExit = true ∧
    (Timer_A1_ISR c s).cap = true ∧
    (Timer_A1_ISR c s).rxBitCnt = 8 := by
  unfold Timer_A1_ISR
  simp [h1, h2]

/-- C7 witness: completion step at a concrete sampling state. -/
theorem rx_completion_delivery_witness :
    (Timer_A1_ISR true
        { TimerA_UART_init with cap := false, rxBitCnt := 1, rxData := 0xAA }).rxBuffer =
      (Timer_A1_ISR true
        { TimerA_UART_init with cap := false, rxBitCnt := 1, rxData := 0xAA }).rxData ∧
    (Timer_A1_ISR true
        { TimerA_UART_init with cap := false, rxBitCnt := 1, rxData := 0xAA }).lpmExit = true ∧
    (Timer_A1_ISR true
        { TimerA_UART_init with cap := false, rxBitCnt := 1, rxData := 0xAA }).cap = true ∧
    (Timer_A1_ISR true
        { TimerA_UART_init with cap := false, rxBitCnt := 1, rxData := 0xAA }).rxBitCnt = 8 :=
  rx_completion_delivery _ true rfl rfl

/-- Helper: if-then-else bound on the sample contribution. -/
theorem lor128 (x : Nat) (hx : x < 128) : x ||| 128 = x + 128 := by
  have h : ∀ y : Fin 128, y.val ||| 128 = y.val + 128 := by decide
  exact h ⟨x, hx⟩

/-- Helper: field-level description of the start-edge capture event from
capture mode. -/
theorem rxCaptureEvent_spec (s : UartState) (t : Nat) (h : s.cap = true) :
    (rxCaptureEvent t s).cap = false ∧
    (rxCaptureEvent t s).taccr1 = (t + UART_TBIT + UART_TBIT_DIV_2) % 65536 ∧
    (rxCaptureEvent t s).rxData = s.rxData ∧
    (rxCaptureEvent t s).rxBitCnt = s.rxBitCnt ∧
    (rxCaptureEvent t s).rxBuffer = s.rxBuffer ∧
    (rxCaptureEvent t s).lpmExit = s.lpmExit := by
  unfold rxCaptureEvent Timer_A1_ISR
  simp [h]

/-- C4 counterexample: on the start-bit capture the handler does not reset
the accumulator to 0 (nor set the bit counter to 0): from the initial
state with stale accumulator 5, after the capture event the accumulator
still holds 5 and the bit counter still holds its reload value 8. -/
theorem rx_start_edge_cex :
    ¬ ((rxCaptureEvent 104 { TimerA_UART_init with rxData := 5 }).rxData = 0 ∧
       (rxCaptureEvent 104 { TimerA_UART_init with rxData := 5 }).rxBitCnt = 0) := by
  decide

/-- C4 (amended): on a falling-edge capture in the AwaitingEdge state the
handler switches the channel from capture to compare mode, sets the next
compare target to captured_time + full + half bit period (the center of
the first data bit) and transitions to Sampling; it leaves the accumulator
and the down-counting bit counter unchanged (the counter already holds its
reload value, meaning zero bits sampled). -/
theorem rx_start_edge_amended (s : UartState) (t : Nat) (h : s.cap = true) :
    (rxCaptureEvent t s).cap = false ∧
    (rxCaptureEvent t s).taccr1 = (t + UART_TBIT + UART_TBIT_DIV_2) % 65536 ∧
    (rxCaptureEvent t s).rxData = s.rxData ∧
    (rxCaptureEvent t s).rxBitCnt = s.rxBitCnt :=
  ⟨(rxCaptureEvent_spec s t h).1, (rxCaptureEvent_spec s t h).2.1,
   (rxCaptureEvent_spec s t h).2.2.1, (rxCaptureEvent_spec s t h).2.2.2.1⟩

/-- C4 witness: the amended capture behaviour at a concrete state. -/
theorem rx_start_edge_amended_witness :
    (rxCaptureEvent 104 { TimerA_UART_init with rxData := 5 }).cap = false ∧
    (rxCaptureEvent 104 { TimerA_UART_init with rxData := 5 }).taccr1 =
      (104 + UART_TBIT + UART_TBIT_DIV_2) % 65536 ∧
    (rxCaptureEvent 104 { TimerA_UART_init with rxData := 5 }).rxData = 5 ∧
    (rxCaptureEvent 104 { TimerA_UART_init with rxData := 5 }).rxBitCnt = 8 :=
  rx_start_edge_amended { TimerA_UART_init with rxData := 5 } 104 rfl

/-- Helper: one sampling compare event that is not the last one (the
decremented counter is nonzero). -/
theorem rx_step_mid (c : Bool) (s : UartState) (hc : s.cap = false)
    (hn : (s.rxBitCnt + 255) % 256 ≠ 0) :
    (Timer_A1_ISR c s).rxData = s.rxData % 256 / 2 + (if c then 128 else 0) ∧
    (Timer_A1_ISR c s).rxBitCnt = (s.rxBitCnt + 255) % 256 ∧
    (Timer_A1_ISR c s).cap = false ∧
    (Timer_A1_ISR c s).rxBuffer = s.rxBuffer ∧
    (Timer_A1_ISR c s).lpmExit = s.lpmExit := by
  have hlt : s.rxData % 256 / 2 < 128 := by omega
  unfold Timer_A1_ISR
  simp [hc, hn]
  cases c <;> simp [lor128 _ hlt]

/-- Helper: the last sampling compare event (the decremented counter
reaches zero): deliver the byte, reload the counter, re-arm capture,
request the LPM0 wake-up. -/
theorem rx_step_last (c : Bool) (s : UartState) (hc : s.cap = false)
    (hn : (s.rxBitCnt + 255) % 256 = 0) :
    (Timer_A1_ISR c s).rxData = s.rxData % 256 / 2 + (if c then 128 else 0) ∧
    (Timer_A1_ISR c s).rxBitCnt = 8 ∧
    (Timer_A1_ISR c s).cap = true ∧
    (Timer_A1_ISR c s).rxBuffer = (Timer_A1_ISR c s).rxData ∧
    (Timer_A1_ISR c s).lpmExit = true := by
  have hlt : s.rxData % 256 / 2 < 128 := by omega
  unfold Timer_A1_ISR
  simp [hc, hn]
  cases c <;> simp [lor128 _ hlt]

/-- Helper: shifting arithmetic for one sampling step. -/
theorem shift_arith (x v cb n : Nat) (h1 : 1 ≤ n) (h2 : n ≤ 7) :
    (x / 2 + cb * 128) / 2 ^ n + v * 2 ^ (8 - n) =
      x / 2 ^ (n + 1) + (cb + 2 * v) * 2 ^ (8 - (n + 1)) := by
  have e0 : cb * 128 = cb * 2 ^ (7 - n) * 2 ^ n := by
    have h7 : 7 - n + n = 7 := by omega
    rw [mul_assoc, ← pow_add, h7]
    norm_num
  have e1 : (x / 2 + cb * 128) / 2 ^ n = x / 2 ^ (n + 1) + cb * 2 ^ (7 - n) := by
    rw [e0, Nat.add_mul_div_right _ _ (Nat.pos_pow_of_pos n (by norm_num)),
        Nat.div_div_eq_div_mul]
    congr 2
    rw [pow_succ, mul_comm]
  have e2 : (cb + 2 * v) * 2 ^ (8 - (n + 1)) = cb * 2 ^ (7 - n) + v * 2 ^ (8 - n) := by
    have h8 : 8 - (n + 1) = 7 - n := by omega
    have h9 : 8 - n = (7 - n) + 1 := by omega
    rw [h8, add_mul, h9, pow_succ]
    ring
  rw [e1, e2]
  ring

/-- Helper: running the sampler over its whole list of latched bits, from
any compare-mode state whose down-counter equals the number of pending
bits, yields the accumulator `stale/2^n + bitsVal bits * 2^(8-n)`; the
final event delivers the byte, reloads the counter and re-arms capture. -/
theorem sampleFold_spec : ∀ (bits : List Bool) (s : UartState),
    s.cap = false → s.rxBitCnt = bits.length → bits.length ≤ 8 → 1 ≤ bits.length →
    (sampleFold bits s).rxData =
        s.rxData % 256 / 2 ^ bits.length + bitsVal bits * 2 ^ (8 - bits.length) ∧
    (sampleFold bits s).cap = true ∧
    (sampleFold bits s).rxBitCnt = 8 ∧
    (sampleFold bits s).rxBuffer = (sampleFold bits s).rxData ∧
    (sampleFold bits s).lpmExit = true := by
  intro bits
  induction bits with
  | nil => intro s _ _ _ h4; simp at h4
  | cons c bs ih =>
    intro s hc hcnt hle hpos
    have hlen : s.rxBitCnt = bs.length + 1 := by simpa using hcnt
    have hble : bs.length + 1 ≤ 8 := by simpa using hle
    rcases Nat.eq_zero_or_pos bs.length with hz | hp
    · -- final step: bs = []
      have hbs : bs = [] := List.length_eq_zero.mp hz
      subst hbs
      have hn : (s.rxBitCnt + 255) % 256 = 0 := by omega
      obtain ⟨hd, h8, hcp, hbuf, hlpm⟩ := rx_step_last c s hc hn
      refine ⟨?_, hcp, h8, hbuf, hlpm⟩
      show (Timer_A1_ISR c s).rxData = _
      rw [hd]
      simp only [bitsVal, List.length_cons, List.length_nil]
      cases c <;> simp
    · -- middle step followed by the rest
      have hn : (s.rxBitCnt + 255) % 256 ≠ 0 := by omega
      obtain ⟨hd, hcnt', hcp, _, _⟩ := rx_step_mid c s hc hn
      have hcnt'' : (Timer_A1_ISR c s).rxBitCnt = bs.length := by rw [hcnt']; omega
      obtain ⟨ihd, ihcp, ihcnt, ihbuf, ihlpm⟩ :=
        ih (Timer_A1_ISR c s) hcp hcnt'' (by omega) hp
      have hfold : sampleFold (c :: bs) s = sampleFold bs (Timer_A1_ISR c s) := rfl
      rw [hfold]
      refine ⟨?_, ihcp, ihcnt, ihbuf, ihlpm⟩
      rw [ihd, hd]
      have hdm : (s.rxData % 256 / 2 + (if c then 128 else 0)) % 256 =
          s.rxData % 256 / 2 + (if c then 128 else 0) := by
        cases c <;> simp <;> omega
      rw [hdm]
      have hb7 : bs.length ≤ 7 := by omega
      have harith := shift_arith (s.rxData % 256) (bitsVal bs) (if c then 1 else 0)
        bs.length hp hb7
      simp only [bitsVal, List.length_cons]
      cases c <;> simpa using harith

/-- Helper: `bitsVal` is LSB-first: bit `k` of the assembled value is the
`k`-th bit of the list. -/
theorem bitOf_bitsVal : ∀ (bits : List Bool) (k : Nat), k < bits.length →
    bitOf (bitsVal bits) k = bits.getD k false := by
  intro bits
  induction bits with
  | nil => intro k h; simp at h
  | cons c bs ih =>
    intro k h
    cases k with
    | zero =>
      simp only [bitOf, bitsVal, pow_zero, Nat.div_one, List.getD_cons_zero]
      cases c <;> simp
    | succ k =>
      have hk : k < bs.length := by simpa using h
      have hdiv : ((if c then 1 else 0) + 2 * bitsVal bs) / 2 ^ (k + 1) =
          bitsVal bs / 2 ^ k := by
        have hx2 : ((if c then 1 else 0) + 2 * bitsVal bs) / 2 = bitsVal bs := by
          cases c <;> simp
          omega
        rw [pow_succ', ← Nat.div_div_eq_div_mul, hx2]
      have step : bitOf (bitsVal (c :: bs)) (k + 1) = bitOf (bitsVal bs) k := by
        simp only [bitOf, bitsVal]
        rw [hdiv]
      rw [step, ih k hk]
      simp

/-- C3: in the Sampling state every compare event advances the compare
target by exactly one full bit period (mod 2^16), and running the sampler
over the 8 latched SCCI bits from the frame entry state (down-counter 8)
assembles exactly those bits LSB-first: the accumulator ends at
`bitsVal bits` and its bit `k` is the `k`-th sample taken. -/
theorem rx_sampling_accumulates (bits : List Bool) (s : UartState)
    (h1 : s.cap = false) (h2 : s.rxBitCnt = 8) (h3 : bits.length = 8) :
    (∀ (c : Bool) (u : UartState), u.cap = false →
        (Timer_A1_ISR c u).taccr1 = (u.taccr1 + UART_TBIT) % 65536) ∧
    (sampleFold bits s).rxData = bitsVal bits ∧
    (∀ k, k < 8 → bitOf ((sampleFold bits s).rxData) k = bits.getD k false) := by
  have hspec := sampleFold_spec bits s h1 (by omega) (by omega) (by omega)
  have hdata : (sampleFold bits s).rxData = bitsVal bits := by
    rw [hspec.1, h3]
    rw [Nat.div_eq_of_lt (by omega : s.rxData % 256 < 2 ^ 8)]
    simp
  refine ⟨?_, hdata, ?_⟩
  · intro c u hu
    unfold Timer_A1_ISR
    simp [hu]
    split_ifs <;> simp
  · intro k hk
    rw [hdata]
    exact bitOf_bitsVal bits k (by omega)

/-- C3 witness: sampling the bits of 0x41 from a dirty accumulator. -/
theorem rx_sampling_accumulates_witness :
    (sampleFold [true, false, false, false, false, false, true, false]
        { TimerA_UART_init with cap := false, rxData := 0x5A }).rxData =
      bitsVal [true, false, false, false, false, false, true, false] :=
  (rx_sampling_accumulates [true, false, false, false, false, false, true, false]
    { TimerA_UART_init with cap := false, rxData := 0x5A } rfl rfl rfl).2.1

/-- Helper: a complete receive frame (capture then 8 samples) delivers the
sampled bits LSB-first to `rxBuffer`, requests the wake-up and returns the
engine to the AwaitingEdge state with the counter reloaded. -/
theorem recvFrame_spec (t : Nat) (bits : List Bool) (s : UartState)
    (h1 : s.cap = true) (h2 : s.rxBitCnt = 8) (hl : bits.length = 8) :
    (recvFrame t bits s).rxBuffer = bitsVal bits ∧
    (recvFrame t bits s).cap = true ∧
    (recvFrame t bits s).rxBitCnt = 8 ∧
    (recvFrame t bits s).lpmExit = true := by
  obtain ⟨hcp, _, _, hcnt, _, _⟩ := rxCaptureEvent_spec s t h1
  have hfold := sampleFold_spec bits (rxCaptureEvent t s) hcp (by omega) (by omega)
    (by omega)
  refine ⟨?_, hfold.2.1, hfold.2.2.1, hfold.2.2.2.2⟩
  have hr : recvFrame t bits s = sampleFold bits (rxCaptureEvent t s) := rfl
  rw [hr, hfold.2.2.2.1, hfold.1, hl]
  rw [Nat.div_eq_of_lt (by omega : (rxCaptureEvent t s).rxData % 256 < 2 ^ 8)]
  simp

/-- C10: two receive frames that latch the same 8 sample bits deliver the
same byte to the mailbox, whatever the leftover contents of the RX
accumulator were when the start edge arrived: the 8 shifts flush every
stale bit. -/
theorem rx_stale_accumulator_irrelevant (t1 t2 : Nat) (bits : List Bool)
    (s1 s2 : UartState) (h1 : s1.cap = true) (h2 : s1.rxBitCnt = 8)
    (h3 : s2.cap = true) (h4 : s2.rxBitCnt = 8) (hl : bits.length = 8) :
    (recvFrame t1 bits s1).rxBuffer = (recvFrame t2 bits s2).rxBuffer := by
  rw [(recvFrame_spec t1 bits s1 h1 h2 hl).1, (recvFrame_spec t2 bits s2 h3 h4 hl).1]

/-- C10 witness: a dirty accumulator (0xAB) and a clean one deliver the same
byte for the same samples. -/
theorem rx_stale_accumulator_irrelevant_witness :
    (recvFrame 104 [true, true, false, false, true, false, true, false]
        { TimerA_UART_init with rxData := 0xAB }).rxBuffer =
      (recvFrame 2000 [true, true, false, false, true, false, true, false]
        TimerA_UART_init).rxBuffer :=
  rx_stale_accumulator_irrelevant 104 2000
    [true, true, false, false, true, false, true, false]
    { TimerA_UART_init with rxData := 0xAB } TimerA_UART_init rfl rfl rfl rfl rfl

/-- C8: the mailbox is a single last-write-wins slot: after a first
completed frame delivers `bitsVal bits1`, a second completed frame before
any consume overwrites it, and the consumer's read observes only the
second byte; no field of the state records the loss. -/
theorem mailbox_overwrite (t1 t2 : Nat) (bits1 bits2 : List Bool)
    (s : UartState) (h1 : s.cap = true) (h2 : s.rxBitCnt = 8)
    (l1 : bits1.length = 8) (l2 : bits2.length = 8) :
    (recvFrame t1 bits1 s).rxBuffer = bitsVal bits1 ∧
    wait_for_byte (recvFrame t2 bits2 (recvFrame t1 bits1 s)) = bitsVal bits2 := by
  obtain ⟨hb1, hcp1, hcnt1, _⟩ := recvFrame_spec t1 bits1 s h1 h2 l1
  obtain ⟨hb2, _, _, _⟩ := recvFrame_spec t2 bits2 (recvFrame t1 bits1 s) hcp1 hcnt1 l2
  exact ⟨hb1, hb2⟩

/-- C8 witness: bytes 0x01 then 0x02 received back to back; the consumer
sees 0x02. -/
theorem mailbox_overwrite_witness :
    (recvFrame 104 [true, false, false, false, false, false, false, false]
        TimerA_UART_init).rxBuffer =
      bitsVal [true, false, false, false, false, false, false, false] ∧
    wait_for_byte
        (recvFrame 2000 [false, true, false, false, false, false, false, false]
          (recvFrame 104 [true, false, false, false, false, false, false, false]
            TimerA_UART_init)) =
      bitsVal [false, true, false, false, false, false, false, false] :=
  mailbox_overwrite 104 2000
    [true, false, false, false, false, false, false, false]
    [false, true, false, false, false, false, false, false]
    TimerA_UART_init rfl rfl rfl rfl

/-- Helper: TX events compose. -/
theorem txIter_add : ∀ (a c : Nat) (s : UartState), txIter (a + c) s = txIter c (txIter a s) := by
  intro a
  induction a with
  | zero => intro c s; rw [Nat.zero_add]; rfl
  | succ a ih =>
    intro c s
    have h : a + 1 + c = (a + c) + 1 := by omega
    rw [h]
    show txIter (a + c) (txStep s) = txIter c (txIter a (txStep s))
    exact ih c (txStep s)

/-- Helper: once CCIE is clear no further TX compare interrupt fires. -/
theorem txIter_fix : ∀ (n : Nat) (s : UartState), s.ccie0 = false → txIter n s = s := by
  intro n
  induction n with
  | zero => intro s _; rfl
  | succ n ih =>
    intro s h
    show txIter n (txStep s) = s
    rw [show txStep s = s by simp [txStep, h]]
    exact ih s h

/-- C2: a frame loaded from idle drives exactly 10 bit periods on the TX
line: the level during bit period `k` is the one programmed by the
`(k+1)`-th compare event, giving start = 0, then the 8 data bits of `b`
LSB-first, then stop = 1; the line is at idle-mark before the first bit
and stays at mark from the stop bit on (the 11th event disables CCIE and
no further event changes the mode). -/
theorem tx_frame_levels (b : Nat) (hb : b < 256) :
    lineLevel (txLoad b 0 TimerA_UART_init) = true ∧
    txLevels b = false :: dataBits b ++ [true] ∧
    (∀ k, 10 ≤ k → lineLevel (txIter k (txLoad b 0 TimerA_UART_init)) = true) := by
  have hfin : ∀ x : Fin 256,
      txLevels x.val = false :: dataBits x.val ++ [true] ∧
      lineLevel (txIter 10 (txLoad x.val 0 TimerA_UART_init)) = true ∧
      lineLevel (txIter 11 (txLoad x.val 0 TimerA_UART_init)) = true ∧
      (txIter 11 (txLoad x.val 0 TimerA_UART_init)).ccie0 = false := by decide
  obtain ⟨h1, h2, h3, h4⟩ := hfin ⟨b, hb⟩
  refine ⟨rfl, h1, ?_⟩
  intro k hk
  rcases Nat.lt_or_ge k 11 with hk11 | hk11
  · have he : k = 10 := by omega
    rw [he]
    exact h2
  · obtain ⟨j, hj⟩ : ∃ j, k = 11 + j := ⟨k - 11, by omega⟩
    rw [hj, txIter_add, txIter_fix j _ h4]
    exact h3

/-- C2 witness: transmitting 0x41 gives the spec waveform
(start, 1,0,0,0,0,0,1,0, stop) after the idle mark. -/
theorem tx_frame_levels_witness :
    txLevels 65 = false :: dataBits 65 ++ [true] ∧
    lineLevel (txLoad 65 0 TimerA_UART_init) = true ∧
    txLevels 65 = [false, true, false, false, false, false, false, true, false, true] := by
  refine ⟨(tx_frame_levels 65 (by norm_num)).2.1, (tx_frame_levels 65 (by norm_num)).1, ?_⟩
  rw [(tx_frame_levels 65 (by norm_num)).2.1]
  decide

/-- C1: loopback round trip.  The TX frame is loaded at TAR = 0, its first
compare event at `UART_TBIT` drives the start bit low, which the RX
capture channel latches at time `UART_TBIT`; the RX engine then samples
the line at `2.5, 3.5, …, 9.5` bit times — the centers of the 8 data
bits — and delivers exactly `b` to `rxBuffer` with the LPM0 wake-up.  The
last sample happens at `9.5` bit times, i.e. before one full frame time
(10 bit periods) after transmission start; afterwards the pending compare
target is `10.5` bit times, as the final conjunct records. -/
theorem loopback_roundtrip (b : Nat) (hb : b < 256) :
    (loopbackRun b).rxBuffer = b ∧ (loopbackRun b).lpmExit = true ∧
    (loopbackRun b).taccr1 = 10 * UART_TBIT + UART_TBIT_DIV_2 := by
  have hfin : ∀ x : Fin 256,
      (loopbackRun x.val).rxBuffer = x.val ∧ (loopbackRun x.val).lpmExit = true ∧
      (loopbackRun x.val).taccr1 = 10 * UART_TBIT + UART_TBIT_DIV_2 := by decide
  exact hfin ⟨b, hb⟩

/-- C1 witness: the loopback delivers 0x41 unchanged. -/
theorem loopback_roundtrip_witness :
    (loopbackRun 65).rxBuffer = 65 ∧ (loopbackRun 65).lpmExit = true :=
  ⟨(loopback_roundtrip 65 (by norm_num)).1, (loopback_roundtrip 65 (by norm_num)).2.1⟩

/-- Helper: bit 0 as a decision on `x & 0x01`. -/
theorem bitOf_zero_eq (x : Nat) : bitOf x 0 = decide (x &&& 1 ≠ 0) := by
  rw [bitOf, Nat.and_one_is_mod]
  rcases Nat.mod_two_eq_zero_or_one x with h | h <;> simp [h]

/-- Helper: a TX compare event mid-frame (counter not yet 0) keeps CCIE,
decrements the counter, shifts the frame register right and drives the
line with its bit 0. -/
theorem tx_step_mid (s : UartState) (hn : s.txBitCnt ≠ 0) :
    (Timer_A0_ISR s).ccie0 = s.ccie0 ∧
    (Timer_A0_ISR s).txBitCnt = (s.txBitCnt + 255) % 256 ∧
    (Timer_A0_ISR s).txData = s.txData / 2 % 65536 ∧
    lineLevel (Timer_A0_ISR s) = bitOf s.txData 0 := by
  simp only [Timer_A0_ISR, lineLevel]
  split_ifs with h0 hbit
  · exact absurd h0 hn
  · refine ⟨rfl, rfl, rfl, ?_⟩
    rw [bitOf_zero_eq]
    simp only [Nat.and_one_is_mod] at hbit
    simp [Nat.and_one_is_mod]
    omega
  · refine ⟨rfl, rfl, rfl, ?_⟩
    rw [bitOf_zero_eq]
    simp only [Nat.and_one_is_mod] at hbit
    simp [Nat.and_one_is_mod]
    omega

/-- Helper: evolution of an in-flight TX frame with `m` bits left: the next
`m` events emit exactly the bits of `txData` LSB-first while CCIE stays
set, and the `(m+1)`-th event disables CCIE (idle). -/
theorem tx_inflight_run : ∀ (m : Nat) (s : UartState), s.ccie0 = true → s.txBitCnt = m →
    m ≤ 10 → s.txData < 65536 →
    (∀ i, i ≤ m → (txIter i s).ccie0 = true ∧ (txIter i s).txBitCnt = m - i ∧
        (txIter i s).txData = s.txData / 2 ^ i) ∧
    (∀ i, i < m → lineLevel (txIter (i + 1) s) = bitOf s.txData i) ∧
    (txIter (m + 1) s).ccie0 = false := by
  intro m
  induction m with
  | zero =>
    intro s hc hcnt _ _
    refine ⟨?_, fun i hi => absurd hi (Nat.not_lt_zero i), ?_⟩
    · intro i hi
      have hi0 : i = 0 := by omega
      subst hi0
      exact ⟨hc, by simpa [txIter] using hcnt, by simp [txIter]⟩
    · show (txIter 0 (txStep s)).ccie0 = false
      have hstep : txStep s = Timer_A0_ISR s := by simp [txStep, hc]
      rw [show txIter 0 (txStep s) = txStep s from rfl, hstep]
      unfold Timer_A0_ISR
      simp [hcnt]
  | succ m ih =>
    intro s hc hcnt hle hdat
    have hstep : txStep s = Timer_A0_ISR s := by simp [txStep, hc]
    have hshift : ∀ i, txIter (i + 1) s = txIter i (Timer_A0_ISR s) := by
      intro i
      show txIter i (txStep s) = _
      rw [hstep]
    have hn : s.txBitCnt ≠ 0 := by omega
    obtain ⟨hce, hcn, hdt, hlv⟩ := tx_step_mid s hn
    have hce' : (Timer_A0_ISR s).ccie0 = true := by rw [hce]; exact hc
    have hcn' : (Timer_A0_ISR s).txBitCnt = m := by rw [hcn]; omega
    have hdt' : (Timer_A0_ISR s).txData = s.txData / 2 := by rw [hdt]; omega
    obtain ⟨ih1, ih2, ih3⟩ := ih (Timer_A0_ISR s) hce' hcn' (by omega)
      (by rw [hdt']; omega)
    refine ⟨?_, ?_, ?_⟩
    · intro i hi
      cases i with
      | zero => exact ⟨hc, by simpa [txIter] using hcnt, by simp [txIter]⟩
      | succ i =>
        have hii : i ≤ m := by omega
        obtain ⟨a1, a2, a3⟩ := ih1 i hii
        rw [hshift i]
        refine ⟨a1, by rw [a2]; omega, ?_⟩
        rw [a3, hdt', Nat.div_div_eq_div_mul, ← pow_succ']
    · intro i hi
      cases i with
      | zero =>
        show lineLevel (txIter 0 (txStep s)) = bitOf s.txData 0
        rw [show txIter 0 (txStep s) = txStep s from rfl, hstep]
        exact hlv
      | succ i =>
        have hii : i < m := by omega
        rw [hshift (i + 1), ih2 i hii, hdt']
        rw [bitOf, bitOf, Nat.div_div_eq_div_mul, ← pow_succ']
    · rw [hshift (m + 1)]
      exact ih3

/-- Helper: the busy-wait does not finish while every observed CCIE is set. -/
theorem txCall_blocked (b tar : Nat) : ∀ (n : Nat) (s : UartState),
    (∀ i, i ≤ n → (txIter i s).ccie0 = true) → txCall b tar n s = none := by
  intro n
  induction n with
  | zero =>
    intro s h
    have h0 : s.ccie0 = true := h 0 (le_refl 0)
    simp [txCall, h0]
  | succ n ih =>
    intro s h
    have h0 : s.ccie0 = true := h 0 (by omega)
    have hstep : txStep s = Timer_A0_ISR s := by simp [txStep, h0]
    simp only [txCall, h0, if_true]
    apply ih
    intro i hi
    rw [show txIter i (Timer_A0_ISR s) = txIter (i + 1) s from by
      show _ = txIter i (txStep s); rw [hstep]]
    exact h (i + 1) (by omega)

/-- Helper: once CCIE is observed clear the call performs its body at once. -/
theorem txCall_ready (b tar : Nat) : ∀ (n : Nat) (s : UartState), s.ccie0 = false →
    txCall b tar n s = some (txLoad b tar s) := by
  intro n
  cases n <;> intro s h <;> simp [txCall, h]

/-- Helper: with `m + 1` events needed to reach idle, any run of at least
`m + 1` events unblocks the call, and the new frame is loaded from the
post-idle state. -/
theorem txCall_completes (b tar : Nat) : ∀ (m n : Nat) (s : UartState),
    (∀ i, i ≤ m → (txIter i s).ccie0 = true) → (txIter (m + 1) s).ccie0 = false →
    m + 1 ≤ n → txCall b tar n s = some (txLoad b tar (txIter (m + 1) s)) := by
  intro m
  induction m with
  | zero =>
    intro n s hin hout hn
    obtain ⟨n', rfl⟩ : ∃ n', n = n' + 1 := ⟨n - 1, by omega⟩
    have h0 : s.ccie0 = true := hin 0 (by omega)
    have hstep : txStep s = Timer_A0_ISR s := by simp [txStep, h0]
    have he : txIter 1 s = Timer_A0_ISR s := by
      show txIter 0 (txStep s) = _
      rw [hstep]
      rfl
    have h1 : (Timer_A0_ISR s).ccie0 = false := by rw [← he]; exact hout
    simp only [txCall, h0, if_true]
    rw [txCall_ready b tar n' _ h1, he]
  | succ m ih =>
    intro n s hin hout hn
    obtain ⟨n', rfl⟩ : ∃ n', n = n' + 1 := ⟨n - 1, by omega⟩
    have h0 : s.ccie0 = true := hin 0 (by omega)
    have hstep : txStep s = Timer_A0_ISR s := by simp [txStep, h0]
    have hshift : ∀ i, txIter i (Timer_A0_ISR s) = txIter (i + 1) s := by
      intro i
      show _ = txIter i (txStep s)
      rw [hstep]
    simp only [txCall, h0, if_true]
    rw [ih n' (Timer_A0_ISR s)
      (fun i hi => by rw [hshift i]; exact hin (i + 1) (by omega))
      (by rw [hshift (m + 1)]; exact hout) (by omega)]
    rw [hshift (m + 1)]

/-- C6: `TimerA_UART_tx` called while a frame is in flight (CCIE set,
`m = txBitCnt` bits still pending): the call stays blocked through the
`m` remaining bit events and the final disable event (returns `none` for
any event budget `n ≤ m`), unblocks exactly when the channel has gone
idle and only then loads the new frame — from the post-idle state — and
meanwhile the in-flight frame is emitted unaltered: the levels driven
during the wait are exactly the pending bits of `txData`, LSB-first, and
the shift register is only ever right-shifted. -/
theorem tx_busy_wait (s : UartState) (b tar m : Nat)
    (h1 : s.ccie0 = true) (h2 : s.txBitCnt = m) (h3 : m ≤ 10)
    (h4 : s.txData < 65536) :
    (∀ n, n ≤ m → txCall b tar n s = none) ∧
    (∀ n, m + 1 ≤ n → txCall b tar n s = some (txLoad b tar (txIter (m + 1) s))) ∧
    (txIter (m + 1) s).ccie0 = false ∧
    (∀ i, i ≤ m → (txIter i s).txData = s.txData / 2 ^ i) ∧
    (∀ i, i < m → lineLevel (txIter (i + 1) s) = bitOf s.txData i) := by
  obtain ⟨hrun, hlev, hend⟩ := tx_inflight_run m s h1 h2 h3 h4
  refine ⟨?_, ?_, hend, fun i hi => (hrun i hi).2.2, hlev⟩
  · intro n hn
    exact txCall_blocked b tar n s (fun i hi => (hrun i (by omega)).1)
  · intro n hn
    exact txCall_completes b tar m n s (fun i hi => (hrun i hi).1) hend hn

/-- Mid-frame TX state used to witness the busy-wait property: the state
reached three bit events after loading byte 0x41 (frame register
0x282 >> 3 = 80, 7 bits still pending). -/
def txWitState : UartState :=
  { taccr0 := 520, ccie0 := true, outmod2 := true, txData := 80, txBitCnt := 7,
    taccr1 := 0, cap := true, rxData := 0, rxBitCnt := 8, rxBuffer := 0,
    lpmExit := false }

/-- C6 witness: with 7 bits pending the call is still blocked after 7
events, returns after 8, and the first level emitted during the wait is
bit 0 of the pending register. -/
theorem tx_busy_wait_witness :
    txCall 66 0 7 txWitState = none ∧
    txCall 66 0 8 txWitState = some (txLoad 66 0 (txIter 8 txWitState)) ∧
    (txIter 8 txWitState).ccie0 = false ∧
    lineLevel (txIter 1 txWitState) = bitOf txWitState.txData 0 := by
  obtain ⟨w1, w2, w3, _, w5⟩ := tx_busy_wait txWitState 66 0 7 rfl rfl
    (by norm_num) (by norm_num [txWitState])
  exact ⟨w1 7 (le_refl 7), w2 8 (by norm_num), w3, w5 0 (by norm_num)⟩
